import Mathlib

/-!
Shallow embedding of the translation resolution and caching subsystem of the
Park Tycoon game backend (`app/services/i18n_service.py` and
`app/core/i18n_middleware.py`), together with proofs of the specified
properties of that subsystem.

The mutable service state (`self._cache : Dict[str, Dict[str, str]]` and
`self._cache_loaded : Set[str]`) is modelled by explicit state passing: the
cache is an association list of `(language, key, value)` triples with
dictionary (first-match) lookup semantics, and each operation returns its
updated state.  Database access (`SessionLocal()` queries) is modelled by a
`Storage` value holding the persisted rows plus a `failing` flag: a failing
storage models the `except Exception` path of the `_load_*` helpers, which
catch the error and behave as a miss.  The number of database round trips an
operation performs is returned explicitly so that "served from cache, no
storage query" properties can be stated.
-/

set_option maxHeartbeats 1000000

namespace I18n

/-- Splits a character list at every occurrence of `sep`, mirroring Python's
`str.split(sep)`: splitting the empty string yields one empty piece. -/
def splitCharList (sep : Char) : List Char → List (List Char)
  | [] => [[]]
  | c :: cs =>
    let r := splitCharList sep cs
    if c = sep then [] :: r
    else
      match r with
      | [] => [[c]]
      | g :: gs => (c :: g) :: gs

/-- Splits a string at every occurrence of the character `sep` (Python
`str.split(sep)` for a one-character separator). -/
def splitStr (sep : Char) (s : String) : List String :=
  (splitCharList sep s.data).map String.mk

/-- Python `str.strip()`: remove leading and trailing whitespace. -/
def trimStr (s : String) : String :=
  String.mk (((s.data.dropWhile Char.isWhitespace).reverse.dropWhile Char.isWhitespace).reverse)

/-- Python `str.lower()` (ASCII case folding suffices for language tags). -/
def lowerStr (s : String) : String :=
  String.mk (s.data.map Char.toLower)

/-- Decimal digit characters to the natural number they denote. -/
def digitsToNat (l : List Char) : Nat :=
  l.foldl (fun n c => 10 * n + (c.toNat - '0'.toNat)) 0

/-- Boolean test that `p` is a prefix of `s` (Python `str.startswith`). -/
def pfxList : List Char → List Char → Bool
  | [], _ => true
  | _ :: _, [] => false
  | a :: as, b :: bs => a == b && pfxList as bs

/-- Python `s.startswith(p)` on strings. -/
def strStartsWith (p s : String) : Bool :=
  pfxList p.data s.data

/-- Model of Python `float(s)` restricted to the plain decimal literals that
occur as `Accept-Language` quality weights: optional surrounding whitespace,
optional sign, digits with an optional single decimal point (`"1"`, `"0.8"`,
`"1."`, `".5"`).  Returns `none` exactly when `float` would raise
`ValueError` on such inputs (exponent and infinity forms are out of scope of
the negotiation grammar and are not modelled). -/
def parseDecimal (s : String) : Option Rat :=
  let cs := (trimStr s).data
  let sgn : Int := match cs with
    | '-' :: _ => -1
    | _ => 1
  let cs := match cs with
    | '-' :: rest => rest
    | '+' :: rest => rest
    | other => other
  match splitCharList '.' cs with
  | [ip] =>
    if ip ≠ [] ∧ ip.all Char.isDigit then
      some (mkRat (sgn * (digitsToNat ip : Int)) 1)
    else none
  | [ip, fp] =>
    if ip.all Char.isDigit ∧ fp.all Char.isDigit ∧ (ip ≠ [] ∨ fp ≠ []) then
      some (mkRat (sgn * ((digitsToNat ip * 10 ^ fp.length + digitsToNat fp : Nat) : Int))
        (10 ^ fp.length))
    else none
  | _ => none

/-- `I18nService.SUPPORTED_LANGUAGES` (a set in the source; order is never
observed, only membership). -/
def SUPPORTED_LANGUAGES : List String := ["en", "zh", "es", "fr"]

/-- `I18nService.DEFAULT_LANGUAGE` (Chinese per the source comment). -/
def DEFAULT_LANGUAGE : String := "zh"

/-- `I18nService.is_language_supported`. -/
def is_language_supported (language_code : String) : Bool :=
  SUPPORTED_LANGUAGES.contains language_code

/-- The header-parsing loop of `I18nService.detect_language_from_header`:
split the header on commas; for each range strip it, split off an optional
`;q=<weight>` suffix (weight defaults to `1.0`, malformed weights — a missing
`=` raising `IndexError` or an unparsable number raising `ValueError` — also
yield `1.0`), lower-case the base subtag before any `-`, and keep only
supported subtags, in header order. -/
def parse_accept_language (accept_language : String) : List (String × Rat) :=
  (splitStr ',' accept_language).filterMap (fun lang_range =>
    let lr := trimStr lang_range
    let parsed : String × Rat :=
      match splitCharList ';' lr.data with
      | l :: q1 :: qrest =>
        let quality : Rat :=
          match splitCharList '=' (List.intercalate [';'] (q1 :: qrest)) with
          | _ :: v :: _ => (parseDecimal (String.mk v)).getD 1
          | _ => 1
        (String.mk l, quality)
      | _ => (lr, 1)
    let lang_code := String.mk ((splitCharList '-' (lowerStr (trimStr parsed.1)).data).headD [])
    if is_language_supported lang_code then some (lang_code, parsed.2) else none)

/-- Insertion step of a stable descending sort on quality: the new element
goes after every existing element of greater-or-equal quality, exactly as
Python's stable `list.sort(key=..., reverse=True)` orders equal keys. -/
def insertDesc (x : String × Rat) : List (String × Rat) → List (String × Rat)
  | [] => [x]
  | y :: ys => if y.2 ≥ x.2 then y :: insertDesc x ys else x :: y :: ys

/-- Stable descending sort by quality, modelling
`languages.sort(key=lambda x: x[1], reverse=True)`. -/
def sortDesc (l : List (String × Rat)) : List (String × Rat) :=
  l.foldl (fun acc x => insertDesc x acc) []

/-- `I18nService.detect_language_from_header`: empty header gives the
default; otherwise parse, return the default if no supported entry remains,
else sort descending by quality and return the first code. -/
def detect_language_from_header (accept_language : String) : String :=
  if accept_language = "" then DEFAULT_LANGUAGE
  else
    let languages := parse_accept_language accept_language
    if languages.isEmpty then DEFAULT_LANGUAGE
    else ((sortDesc languages).headD ("", 0)).1

example : detect_language_from_header "fr;q=0.8,en;q=0.9,zh;q=1.0" = "zh" := by decide
example : detect_language_from_header "de,it" = "zh" := by decide
example : detect_language_from_header "" = "zh" := by decide
example : detect_language_from_header "EN-US,fr;q=0.5" = "en" := by decide
example : detect_language_from_header "fr;q=broken,es;q=0.4" = "fr" := by decide
example : parse_accept_language "en;q=0.9,fr;q=0.9" = [("en", mkRat 9 10), ("fr", mkRat 9 10)] := by
  decide
example : detect_language_from_header "en;q=0.9,fr;q=0.9" = "en" := by decide

/-- A row of the `translations` table (`app/models/translation.py`): the
columns the service reads. -/
structure Translation where
  key : String
  language_code : String
  value : String
  category : String
deriving DecidableEq, Repr

/-- The persistent store as seen by the service: the translation rows, plus a
flag modelling the session raising on every query (the `except Exception`
branches of the `_load_*` helpers catch this and treat it as a miss). -/
structure Storage where
  rows : List Translation
  failing : Bool := false
deriving DecidableEq, Repr

/-- The value the store holds for `(key, language_code)`:
`session.query(Translation).filter(key, language_code).first()`, ignoring
transport failures. -/
def stored_value (db : Storage) (key language_code : String) : Option String :=
  (db.rows.find? (fun r => r.key == key && r.language_code == language_code)).map
    Translation.value

/-- `I18nService._load_translation_from_db`: the query result, or `None` when
the query raises (caught and logged). -/
def load_translation_from_db (db : Storage) (key language_code : String) : Option String :=
  if db.failing then none else stored_value db key language_code

/-- `self._cache : Dict[str, Dict[str, str]]`, flattened to `(language, key,
value)` triples with first-match lookup. -/
abbrev Cache := List (String × String × String)

/-- `I18nService._get_from_cache`: `self._cache.get(language_code, {}).get(key)`. -/
def get_from_cache (c : Cache) (key language_code : String) : Option String :=
  (c.find? (fun e => e.1 == language_code && e.2.1 == key)).map (fun e => e.2.2)

/-- `I18nService._cache_translation`: `self._cache[language_code][key] = value`
— replace the entry for `(language_code, key)` if present, else add it. -/
def cache_translation (c : Cache) (key language_code value : String) : Cache :=
  match c.find? (fun e => e.1 == language_code && e.2.1 == key) with
  | some _ => c.map (fun e => if e.1 == language_code && e.2.1 == key
      then (language_code, key, value) else e)
  | none => c ++ [(language_code, key, value)]

/-- Result of one `get_translation` call: the returned string, the cache
state after the call, and how many database queries the call issued. -/
structure ResolveResult where
  value : String
  cache : Cache
  dbQueries : Nat
deriving DecidableEq, Repr

/-- The argument normalization prefix of `I18nService.get_translation`: a
`None` language becomes `DEFAULT_LANGUAGE`; a `None` fallback becomes `"en"`
unless the (not yet validated) language already is `"en"`, in which case it
becomes `DEFAULT_LANGUAGE`; finally an unsupported language is replaced by
`DEFAULT_LANGUAGE` (with a logged warning).  Returns the effective
`(language_code, fallback_language)` pair. -/
def effective_languages (language_code? fallback_language? : Option String) : String × String :=
  let language_code := language_code?.getD DEFAULT_LANGUAGE
  let fallback_language := fallback_language?.getD
    (if language_code ≠ "en" then "en" else DEFAULT_LANGUAGE)
  let language_code := if is_language_supported language_code then language_code
    else DEFAULT_LANGUAGE
  (language_code, fallback_language)

/-- The lookup chain of `I18nService.get_translation` after argument
normalization: cache, then database (caching a hit), then — when the
fallback differs from the requested language — the same two steps for the
fallback language, and finally the key itself. -/
def resolve_core (db : Storage) (c : Cache) (key language_code fallback_language : String) :
    ResolveResult :=
  match get_from_cache c key language_code with
  | some translation => ⟨translation, c, 0⟩
  | none =>
    match load_translation_from_db db key language_code with
    | some translation => ⟨translation, cache_translation c key language_code translation, 1⟩
    | none =>
      if fallback_language ≠ language_code then
        match get_from_cache c key fallback_language with
        | some fallback_translation => ⟨fallback_translation, c, 1⟩
        | none =>
          match load_translation_from_db db key fallback_language with
          | some fallback_translation =>
            ⟨fallback_translation, cache_translation c key fallback_language fallback_translation, 2⟩
          | none => ⟨key, c, 2⟩
      else ⟨key, c, 1⟩

/-- `I18nService.get_translation`.  The function is total: every failure mode
(unsupported language, storage failure, missing key) degrades to a returned
string, mirroring the source's guarantee that no exception escapes to the
caller. -/
def get_translation (db : Storage) (c : Cache) (key : String)
    (language_code? : Option String := none) (fallback_language? : Option String := none) :
    ResolveResult :=
  let eff := effective_languages language_code? fallback_language?
  resolve_core db c key eff.1 eff.2

/-- The predicate shared by `_is_category_cached` and the result filter of
`get_translations_by_category`: a cache entry for this language whose key
starts with `"<category>."`. -/
def category_pred (category language_code : String) (e : String × String × String) : Bool :=
  e.1 == language_code && strStartsWith (category ++ ".") e.2.1

/-- `I18nService._is_category_cached`: the source's heuristic — the category
counts as cached as soon as any cached key of the language carries the
category prefix. -/
def is_category_cached (c : Cache) (category language_code : String) : Bool :=
  c.any (category_pred category language_code)

/-- `I18nService._load_category_from_db`: cache every row whose `category`
column and `language_code` match; on a query failure nothing is cached. -/
def load_category_from_db (db : Storage) (c : Cache) (category language_code : String) : Cache :=
  if db.failing then c
  else (db.rows.filter (fun r => r.category == category && r.language_code == language_code)).foldl
    (fun acc r => cache_translation acc r.key language_code r.value) c

/-- `I18nService.get_translations_by_category`: normalize the language,
bulk-load the category unless the heuristic says it is cached, then return
the cached entries of that language filtered by key prefix (as a key/value
association list), together with the new cache state. -/
def get_translations_by_category (db : Storage) (c : Cache) (category : String)
    (language_code? : Option String := none) : List (String × String) × Cache :=
  let language_code := language_code?.getD DEFAULT_LANGUAGE
  let language_code := if is_language_supported language_code then language_code
    else DEFAULT_LANGUAGE
  let c' := if !(is_category_cached c category language_code) then
    load_category_from_db db c category language_code else c
  ((c'.filter (category_pred category language_code)).map (fun e => (e.2.1, e.2.2)), c')

/-- `I18nService.clear_cache`: with a truthy language argument, drop that
language's cache partition and preload marker; otherwise clear everything.
Returns the new `(cache, cache_loaded)` state. -/
def clear_cache (c : Cache) (cache_loaded : List String) (language_code? : Option String) :
    Cache × List String :=
  match language_code? with
  | some language_code =>
    if language_code ≠ "" then
      (c.filter (fun e => !(e.1 == language_code)),
       cache_loaded.filter (fun l => !(l == language_code)))
    else ([], [])
  | none => ([], [])

/-- Request inputs the middleware inspects: the `lang` query parameter and
the `X-Language` and `Accept-Language` headers (absent or present). -/
structure RequestData where
  lang_param : Option String
  x_language : Option String
  accept_language : Option String
deriving DecidableEq, Repr

/-- Python truthiness of an optional string: present and non-empty. -/
def truthyStr : Option String → Bool
  | none => false
  | some s => !(s == "")

/-- `I18nMiddleware._detect_request_language` with the middleware's
`default_language` made explicit: query parameter (if truthy and supported),
then `X-Language` header (same test), then the negotiated `Accept-Language`
result (kept only when it differs from the middleware default, else the
default — which is the same string), else the default. -/
def detect_request_language (default_language : String) (req : RequestData) : String :=
  if truthyStr req.lang_param && is_language_supported (req.lang_param.getD "") then
    req.lang_param.getD ""
  else if truthyStr req.x_language && is_language_supported (req.x_language.getD "") then
    req.x_language.getD ""
  else if truthyStr req.accept_language then
    let detected := detect_language_from_header (req.accept_language.getD "")
    if detected ≠ default_language then detected else default_language
  else default_language

example :
    get_translation ⟨[⟨"greet", "en", "Hello", "ui"⟩], false⟩ [] "greet" (some "zh") none =
      ⟨"Hello", [("en", "greet", "Hello")], 2⟩ := by decide
example :
    get_translation ⟨[⟨"greet", "zh", "Nihao", "ui"⟩], false⟩ [] "greet" (some "zh") none =
      ⟨"Nihao", [("zh", "greet", "Nihao")], 1⟩ := by decide
example :
    get_translation ⟨[⟨"greet", "zh", "Nihao", "ui"⟩], true⟩ [] "greet" (some "zh") none =
      ⟨"greet", [], 2⟩ := by decide
example :
    (get_translations_by_category ⟨[⟨"ui.a", "en", "A", "ui"⟩, ⟨"ui.b", "en", "B", "ui"⟩], false⟩
      [("en", "ui.a", "A")] "ui" (some "en")).1 = [("ui.a", "A")] := by decide
example :
    (get_translations_by_category ⟨[⟨"ui.a", "en", "A", "ui"⟩, ⟨"ui.b", "en", "B", "ui"⟩], false⟩
      [] "ui" (some "en")).1 = [("ui.a", "A"), ("ui.b", "B")] := by decide
example : detect_request_language "zh" ⟨some "fr", some "en", none⟩ = "fr" := by decide
example : detect_request_language "zh" ⟨some "de", some "en", none⟩ = "en" := by decide
example : detect_request_language "zh" ⟨none, none, some "fr;q=0.5,es"⟩ = "es" := by decide

/-- Modelled from the claim under scrutiny for the negotiator: the entry of
a weighted preference list that appears earliest among those attaining the
maximal weight — a later entry replaces the current best only when its
weight is strictly greater, so ties keep the earlier entry. -/
def earliest_max (l : List (String × Rat)) : Option (String × Rat) :=
  l.foldl (fun best x =>
    match best with
    | none => some x
    | some y => if x.2 > y.2 then some x else some y) none

/-- One step of tracking the head of the stable descending sort: the current
best survives against a newcomer of smaller-or-equal weight. -/
def stepMax (best : Option (String × Rat)) (x : String × Rat) : Option (String × Rat) :=
  match best with
  | none => some x
  | some y => if y.2 ≥ x.2 then some y else some x

/-- The earliest entry of maximal weight, phrased as a left fold of
`stepMax`; proved below to be the head of the stable descending sort. -/
def firstMax (l : List (String × Rat)) : Option (String × Rat) :=
  l.foldl stepMax none

theorem head?_insertDesc (x : String × Rat) (l : List (String × Rat)) :
    (insertDesc x l).head? = stepMax l.head? x := by
  cases l with
  | nil => rfl
  | cons y ys =>
    by_cases h : y.2 ≥ x.2 <;> simp [insertDesc, stepMax, h]

theorem head?_sortAux (l : List (String × Rat)) :
    ∀ acc : List (String × Rat),
      (l.foldl (fun a x => insertDesc x a) acc).head? = l.foldl stepMax acc.head? := by
  induction l with
  | nil => intro acc; rfl
  | cons x xs ih =>
    intro acc
    simp only [List.foldl_cons]
    rw [ih (insertDesc x acc), head?_insertDesc]

theorem head?_sortDesc (l : List (String × Rat)) :
    (sortDesc l).head? = firstMax l := by
  simpa using head?_sortAux l []

theorem firstMax_mem (l : List (String × Rat)) :
    ∀ (o : Option (String × Rat)) (m : String × Rat),
      l.foldl stepMax o = some m → o = some m ∨ m ∈ l := by
  induction l with
  | nil => intro o m h; exact Or.inl h
  | cons x xs ih =>
    intro o m h
    rcases ih (stepMax o x) m h with h' | h'
    · cases o with
      | none =>
        simp only [stepMax] at h'
        exact Or.inr (by simp [← Option.some_inj.mp h'])
      | some y =>
        simp only [stepMax] at h'
        by_cases hq : y.2 ≥ x.2
        · rw [if_pos hq] at h'
          exact Or.inl h'
        · rw [if_neg hq] at h'
          exact Or.inr (by simp [← Option.some_inj.mp h'])
    · exact Or.inr (List.mem_cons_of_mem _ h')

theorem firstMax_max (l : List (String × Rat)) :
    ∀ (o : Option (String × Rat)) (m : String × Rat),
      l.foldl stepMax o = some m →
      (∀ x ∈ l, x.2 ≤ m.2) ∧ (∀ y, o = some y → y.2 ≤ m.2) := by
  induction l with
  | nil =>
    intro o m h
    refine ⟨by simp, fun y hy => ?_⟩
    rw [hy] at h
    exact le_of_eq (congrArg Prod.snd (Option.some_inj.mp h))
  | cons x xs ih =>
    intro o m h
    obtain ⟨hxs, hstep⟩ := ih (stepMax o x) m h
    have hx : x.2 ≤ m.2 := by
      cases o with
      | none => exact hstep x rfl
      | some y =>
        by_cases hq : y.2 ≥ x.2
        · exact le_trans hq (hstep y (by simp [stepMax, hq]))
        · exact hstep x (by simp [stepMax, hq])
    refine ⟨fun z hz => ?_, fun y hy => ?_⟩
    · rcases List.mem_cons.mp hz with hz | hz
      · exact hz ▸ hx
      · exact hxs z hz
    · cases o with
      | none => exact Option.noConfusion hy
      | some y' =>
        have hy' : y' = y := Option.some_inj.mp hy
        subst hy'
        by_cases hq : y'.2 ≥ x.2
        · exact hstep y' (by simp [stepMax, hq])
        · exact le_trans (le_of_not_ge hq) (hstep x (by simp [stepMax, hq]))

theorem foldl_stepMax_isSome (l : List (String × Rat)) :
    ∀ y : String × Rat, ∃ m, l.foldl stepMax (some y) = some m := by
  induction l with
  | nil => intro y; exact ⟨y, rfl⟩
  | cons x xs ih =>
    intro y
    simp only [List.foldl_cons]
    by_cases hq : y.2 ≥ x.2
    · simpa [stepMax, hq] using ih y
    · simpa [stepMax, hq] using ih x

theorem firstMax_of_ne_nil (l : List (String × Rat)) (h : l ≠ []) :
    ∃ m, firstMax l = some m := by
  cases l with
  | nil => exact absurd rfl h
  | cons x xs =>
    simpa [firstMax, stepMax] using foldl_stepMax_isSome xs x

theorem get_from_cache_eq_none_iff (c : Cache) (key lang : String) :
    get_from_cache c key lang = none ↔
      c.find? (fun e => e.1 == lang && e.2.1 == key) = none := by
  simp [get_from_cache]

theorem find?_append_single_of_none {α : Type} (p : α → Bool) (x : α) (c : List α)
    (hc : c.find? p = none) : (c ++ [x]).find? p = if p x then some x else none := by
  rw [List.find?_append, hc, Option.none_or]
  by_cases hx : p x <;> simp [List.find?, hx]

theorem find?_append_single_of_some {α : Type} (p : α → Bool) (x e : α) (c : List α)
    (hc : c.find? p = some e) : (c ++ [x]).find? p = some e := by
  rw [List.find?_append, hc]
  rfl

theorem get_from_cache_append_self (c : Cache) (key lang v : String)
    (h : get_from_cache c key lang = none) :
    get_from_cache (c ++ [(lang, key, v)]) key lang = some v := by
  rw [get_from_cache_eq_none_iff] at h
  unfold get_from_cache
  rw [find?_append_single_of_none _ _ _ h]
  simp

theorem entry_pred_false_of_ne {key lang key' lang' : String} (v : String)
    (h : ¬(lang' = lang ∧ key' = key)) :
    ((lang, key, v).1 == lang' && (lang, key, v).2.1 == key') = false := by
  by_cases h1 : lang = lang'
  · by_cases h2 : key = key'
    · exact absurd ⟨h1.symm, h2.symm⟩ h
    · have hk : (key == key') = false := beq_eq_false_iff_ne.mpr h2
      simp [hk]
  · have hl : (lang == lang') = false := beq_eq_false_iff_ne.mpr h1
    simp [hl]

theorem get_from_cache_append_other (c : Cache) {key lang key' lang' : String} (v : String)
    (h : ¬(lang' = lang ∧ key' = key)) :
    get_from_cache (c ++ [(lang, key, v)]) key' lang' = get_from_cache c key' lang' := by
  unfold get_from_cache
  have hx := entry_pred_false_of_ne v h
  cases hf : c.find? (fun e => e.1 == lang' && e.2.1 == key') with
  | none =>
    rw [find?_append_single_of_none _ _ _ hf, hx]
    simp
  | some e =>
    rw [find?_append_single_of_some _ _ _ _ hf]

theorem find?_map_replace (c : Cache) (key lang v : String) :
    (c.map (fun e => if e.1 == lang && e.2.1 == key then (lang, key, v) else e)).find?
        (fun e => e.1 == lang && e.2.1 == key)
      = (c.find? (fun e => e.1 == lang && e.2.1 == key)).map (fun _ => (lang, key, v)) := by
  induction c with
  | nil => rfl
  | cons hd tl ih =>
    rw [List.map_cons, List.find?_cons, List.find?_cons]
    by_cases hp : (hd.1 == lang && hd.2.1 == key) = true
    · rw [if_pos hp, hp]
      have hself : ((lang, key, v).1 == lang && (lang, key, v).2.1 == key) = true := by simp
      rw [hself]
      rfl
    · have hp' : (hd.1 == lang && hd.2.1 == key) = false := Bool.not_eq_true _ ▸ hp
      rw [if_neg hp, hp', ih]

theorem find?_map_replace_other (c : Cache) {key lang key' lang' : String} (v : String)
    (h : ¬(lang' = lang ∧ key' = key)) :
    (c.map (fun e => if e.1 == lang && e.2.1 == key then (lang, key, v) else e)).find?
        (fun e => e.1 == lang' && e.2.1 == key')
      = c.find? (fun e => e.1 == lang' && e.2.1 == key') := by
  have hx := entry_pred_false_of_ne v h
  induction c with
  | nil => rfl
  | cons hd tl ih =>
    rw [List.map_cons, List.find?_cons, List.find?_cons]
    by_cases hp : (hd.1 == lang && hd.2.1 == key) = true
    · have hq : (hd.1 == lang' && hd.2.1 == key') = false := by
        obtain ⟨h1, h2⟩ := Bool.and_eq_true_iff.mp hp
        rw [beq_iff_eq] at h1 h2
        rw [h1, h2]
        exact hx
      rw [if_pos hp, hq, hx, ih]
    · have hp' : (hd.1 == lang && hd.2.1 == key) = false := Bool.not_eq_true _ ▸ hp
      rw [if_neg hp]
      cases hq : (hd.1 == lang' && hd.2.1 == key') with
      | true => rfl
      | false => rw [ih]

theorem get_from_cache_cache_translation_self (c : Cache) (key lang v : String) :
    get_from_cache (cache_translation c key lang v) key lang = some v := by
  unfold cache_translation
  cases hf : c.find? (fun e => e.1 == lang && e.2.1 == key) with
  | none =>
    exact get_from_cache_append_self c key lang v
      ((get_from_cache_eq_none_iff c key lang).mpr hf)
  | some e =>
    unfold get_from_cache
    rw [find?_map_replace, hf]
    rfl

theorem get_from_cache_cache_translation_other (c : Cache) {key lang key' lang' : String}
    (v : String) (h : ¬(lang' = lang ∧ key' = key)) :
    get_from_cache (cache_translation c key lang v) key' lang' =
      get_from_cache c key' lang' := by
  unfold cache_translation
  cases hf : c.find? (fun e => e.1 == lang && e.2.1 == key) with
  | none => exact get_from_cache_append_other c v h
  | some e =>
    unfold get_from_cache
    rw [find?_map_replace_other c v h]

theorem cache_translation_of_miss (c : Cache) (key lang v : String)
    (h : get_from_cache c key lang = none) :
    cache_translation c key lang v = c ++ [(lang, key, v)] := by
  rw [get_from_cache_eq_none_iff] at h
  unfold cache_translation
  rw [h]

theorem fold_cache_preserve (lang : String) (rows : List Translation) :
    ∀ (c : Cache) (l k : String),
      (∀ r ∈ rows, ¬(l = lang ∧ k = r.key)) →
      get_from_cache (rows.foldl (fun acc r => cache_translation acc r.key lang r.value) c) k l
        = get_from_cache c k l := by
  induction rows with
  | nil => intro c l k _; rfl
  | cons r rs ih =>
    intro c l k h
    rw [List.foldl_cons, ih _ l k (fun r' hr' => h r' (List.mem_cons_of_mem _ hr'))]
    exact get_from_cache_cache_translation_other c r.value (h r (List.mem_cons_self _ _))

theorem fold_cache_append (lang : String) (rows : List Translation) :
    ∀ c : Cache,
      (∀ r ∈ rows, get_from_cache c r.key lang = none) →
      (∀ r ∈ rows, r.language_code = lang) →
      rows.Pairwise (fun a b => a.key ≠ b.key ∨ a.language_code ≠ b.language_code) →
      rows.foldl (fun acc r => cache_translation acc r.key lang r.value) c
        = c ++ rows.map (fun r => (lang, r.key, r.value)) := by
  induction rows with
  | nil => intro c _ _ _; simp
  | cons r rs ih =>
    intro c hmiss hlang hdist
    rw [List.foldl_cons,
      cache_translation_of_miss c r.key lang r.value (hmiss r (List.mem_cons_self _ _))]
    have hpair := List.pairwise_cons.mp hdist
    have hmiss' : ∀ r' ∈ rs, get_from_cache (c ++ [(lang, r.key, r.value)]) r'.key lang = none := by
      intro r' hr'
      have hk : r'.key ≠ r.key := by
        rcases hpair.1 r' hr' with hne | hne
        · exact fun he => hne he.symm
        · exact absurd ((hlang r (List.mem_cons_self _ _)).trans
            (hlang r' (List.mem_cons_of_mem _ hr')).symm) hne
      rw [get_from_cache_append_other c r.value (fun hc => hk hc.2)]
      exact hmiss r' (List.mem_cons_of_mem _ hr')
    rw [ih (c ++ [(lang, r.key, r.value)]) hmiss'
      (fun r' hr' => hlang r' (List.mem_cons_of_mem _ hr')) hpair.2]
    simp

theorem mem_supported_iff (l : String) :
    is_language_supported l = true ↔ l ∈ SUPPORTED_LANGUAGES := by
  simp [is_language_supported]

theorem effective_fst_of_supported (L : String) (hL : L ∈ SUPPORTED_LANGUAGES) :
    (effective_languages (some L) none).1 = L := by
  unfold effective_languages
  simp only [Option.getD_some]
  rw [if_pos ((mem_supported_iff L).mpr hL)]

theorem effective_snd_of_supported (L : String) :
    (effective_languages (some L) none).2 =
      if L ≠ "en" then "en" else DEFAULT_LANGUAGE := rfl

theorem effective_fst_supported (language_code? fallback_language? : Option String) :
    (effective_languages language_code? fallback_language?).1 ∈ SUPPORTED_LANGUAGES := by
  unfold effective_languages
  by_cases h : is_language_supported (language_code?.getD DEFAULT_LANGUAGE) = true
  · simp only [if_pos h]
    exact (mem_supported_iff _).mp h
  · simp only [if_neg h]
    decide

theorem effective_snd_none_supported (language_code? : Option String) :
    (effective_languages language_code? none).2 ∈ SUPPORTED_LANGUAGES := by
  unfold effective_languages
  by_cases h : language_code?.getD DEFAULT_LANGUAGE ≠ "en"
  · simp only [Option.getD_none, if_pos h]
    decide
  · simp only [Option.getD_none, if_neg h]
    decide

theorem effective_snd_ne_fst (language_code? : Option String) :
    (effective_languages language_code? none).2 ≠ (effective_languages language_code? none).1 := by
  unfold effective_languages
  by_cases he : language_code?.getD DEFAULT_LANGUAGE ≠ "en"
  · simp only [Option.getD_none, if_pos he]
    by_cases hs : is_language_supported (language_code?.getD DEFAULT_LANGUAGE) = true
    · simp only [if_pos hs]
      exact fun h => he h.symm
    · simp only [if_neg hs]
      decide
  · simp only [Option.getD_none, if_neg he]
    rw [not_not] at he
    have hs : is_language_supported (language_code?.getD DEFAULT_LANGUAGE) = true := by
      rw [he]; decide
    simp only [if_pos hs, he]
    decide

theorem resolve_core_cache_hit {db : Storage} {c : Cache} {key L t : String} (F : String)
    (hc : get_from_cache c key L = some t) :
    resolve_core db c key L F = ⟨t, c, 0⟩ := by
  unfold resolve_core
  rw [hc]

theorem resolve_core_db_hit {db : Storage} {c : Cache} {key L t : String} (F : String)
    (hc : get_from_cache c key L = none)
    (hl : load_translation_from_db db key L = some t) :
    resolve_core db c key L F = ⟨t, cache_translation c key L t, 1⟩ := by
  unfold resolve_core
  rw [hc, hl]

theorem resolve_core_fb_cache_hit {db : Storage} {c : Cache} {key L F t : String}
    (hc : get_from_cache c key L = none)
    (hl : load_translation_from_db db key L = none)
    (hne : F ≠ L)
    (hcF : get_from_cache c key F = some t) :
    resolve_core db c key L F = ⟨t, c, 1⟩ := by
  unfold resolve_core
  rw [hc, hl, if_pos hne, hcF]

theorem resolve_core_fb_db_hit {db : Storage} {c : Cache} {key L F t : String}
    (hc : get_from_cache c key L = none)
    (hl : load_translation_from_db db key L = none)
    (hne : F ≠ L)
    (hcF : get_from_cache c key F = none)
    (hlF : load_translation_from_db db key F = some t) :
    resolve_core db c key L F = ⟨t, cache_translation c key F t, 2⟩ := by
  unfold resolve_core
  rw [hc, hl, if_pos hne, hcF, hlF]

theorem resolve_core_miss {db : Storage} {c : Cache} {key L F : String}
    (hc : get_from_cache c key L = none)
    (hl : load_translation_from_db db key L = none)
    (hne : F ≠ L)
    (hcF : get_from_cache c key F = none)
    (hlF : load_translation_from_db db key F = none) :
    resolve_core db c key L F = ⟨key, c, 2⟩ := by
  unfold resolve_core
  rw [hc, hl, if_pos hne, hcF, hlF]

theorem get_translation_eq_resolve_core (db : Storage) (c : Cache) (key : String)
    (language_code? fallback_language? : Option String) :
    get_translation db c key language_code? fallback_language? =
      resolve_core db c key (effective_languages language_code? fallback_language?).1
        (effective_languages language_code? fallback_language?).2 := rfl

/-- C7: for every key K and every language code L not in the supported set,
`get_translation(K, L)` silently substitutes the configured default language
for L and returns the same result — value, cache effect and query count —
as `get_translation(K, DEFAULT_LANGUAGE)`. -/
theorem c7_unsupported_language_uses_default (db : Storage) (c : Cache) (K L : String)
    (hL : L ∉ SUPPORTED_LANGUAGES) :
    get_translation db c K (some L) none =
      get_translation db c K (some DEFAULT_LANGUAGE) none := by
  have hLen : L ≠ "en" := fun h => hL (h ▸ (by decide : ("en" : String) ∈ SUPPORTED_LANGUAGES))
  have hs : ¬ is_language_supported L = true := fun h => hL ((mem_supported_iff L).mp h)
  rw [get_translation_eq_resolve_core, get_translation_eq_resolve_core]
  have heq : effective_languages (some L) none = effective_languages (some DEFAULT_LANGUAGE) none := by
    unfold effective_languages
    simp only [Option.getD_some, Option.getD_none]
    rw [if_neg hs, if_pos ((mem_supported_iff DEFAULT_LANGUAGE).mpr (by decide)),
      if_pos hLen, if_pos (by decide : DEFAULT_LANGUAGE ≠ "en")]
  rw [heq]

/-- Witness for C7 at the unsupported code `"de"`. -/
theorem c7_witness :
    get_translation ⟨[⟨"greet", "zh", "NH", "ui"⟩], false⟩ [] "greet" (some "de") none =
      get_translation ⟨[⟨"greet", "zh", "NH", "ui"⟩], false⟩ [] "greet"
        (some DEFAULT_LANGUAGE) none :=
  c7_unsupported_language_uses_default ⟨[⟨"greet", "zh", "NH", "ui"⟩], false⟩ [] "greet" "de"
    (by decide)

/-- C1: with working storage and a cache coherent with storage, a key
present in storage for a supported language L resolves to its stored value;
and a key present only in the fallback language English (the default
fallback when L is not English) resolves to the English stored value. -/
theorem c1_resolution_and_fallback (db : Storage) (c : Cache) (K L v : String)
    (hfail : db.failing = false)
    (hcoh : ∀ l k w, get_from_cache c k l = some w → stored_value db k l = some w)
    (hL : L ∈ SUPPORTED_LANGUAGES) :
    (stored_value db K L = some v → (get_translation db c K (some L) none).value = v) ∧
    (L ≠ "en" → stored_value db K L = none → stored_value db K "en" = some v →
      (get_translation db c K (some L) none).value = v) := by
  have hload : ∀ k l, load_translation_from_db db k l = stored_value db k l := by
    intro k l; simp [load_translation_from_db, hfail]
  rw [get_translation_eq_resolve_core, effective_fst_of_supported L hL]
  constructor
  · intro hst
    cases hc : get_from_cache c K L with
    | some t =>
      rw [resolve_core_cache_hit _ hc]
      have hco := hcoh L K t hc
      rw [hst] at hco
      exact (Option.some_inj.mp hco).symm
    | none =>
      rw [resolve_core_db_hit _ hc ((hload K L).trans hst)]
  · intro hLen h0 hF
    have hne : ("en" : String) ≠ L := fun h => hLen h.symm
    have hFval : (effective_languages (some L) none).2 = "en" := by
      rw [effective_snd_of_supported, if_pos hLen]
    rw [hFval]
    cases hc : get_from_cache c K L with
    | some t =>
      have hco := hcoh L K t hc
      rw [h0] at hco
      exact Option.noConfusion hco
    | none =>
      cases hcF : get_from_cache c K "en" with
      | some ft =>
        rw [resolve_core_fb_cache_hit hc ((hload K L).trans h0) hne hcF]
        have hco := hcoh "en" K ft hcF
        rw [hF] at hco
        exact (Option.some_inj.mp hco).symm
      | none =>
        rw [resolve_core_fb_db_hit hc ((hload K L).trans h0) hne hcF ((hload K "en").trans hF)]

/-- Witness for C1: a direct hit in the requested language and a fallback
hit in English, both from an empty (hence coherent) cache. -/
theorem c1_witness :
    ((get_translation ⟨[⟨"greet", "zh", "NH", "ui"⟩, ⟨"bye", "en", "Bye", "ui"⟩], false⟩ []
        "greet" (some "zh") none).value = "NH") ∧
    ((get_translation ⟨[⟨"greet", "zh", "NH", "ui"⟩, ⟨"bye", "en", "Bye", "ui"⟩], false⟩ []
        "bye" (some "fr") none).value = "Bye") :=
  ⟨(c1_resolution_and_fallback ⟨[⟨"greet", "zh", "NH", "ui"⟩, ⟨"bye", "en", "Bye", "ui"⟩], false⟩
      [] "greet" "zh" "NH" rfl (fun l k w h => by simp [get_from_cache] at h) (by decide)).1
      (by decide),
   (c1_resolution_and_fallback ⟨[⟨"greet", "zh", "NH", "ui"⟩, ⟨"bye", "en", "Bye", "ui"⟩], false⟩
      [] "bye" "fr" "Bye" rfl (fun l k w h => by simp [get_from_cache] at h) (by decide)).2
      (by decide) (by decide) (by decide)⟩

/-- C2: a key that misses the cache and the storage in every supported
language — in particular when every storage query fails and is caught —
resolves to the key string itself, for any requested language (supported,
unsupported, or absent); the embedding is a total function, so no exception
reaches the caller. -/
theorem c2_missing_key_returns_key (db : Storage) (c : Cache) (K : String)
    (hc : ∀ l ∈ SUPPORTED_LANGUAGES, get_from_cache c K l = none)
    (hdb : ∀ l ∈ SUPPORTED_LANGUAGES, load_translation_from_db db K l = none) :
    ∀ language_code? : Option String,
      (get_translation db c K language_code? none).value = K := by
  intro language_code?
  rw [get_translation_eq_resolve_core]
  have h1 := effective_fst_supported language_code? none
  have h2 := effective_snd_none_supported language_code?
  have hne := effective_snd_ne_fst language_code?
  rw [resolve_core_miss (hc _ h1) (hdb _ h1) hne (hc _ h2) (hdb _ h2)]

/-- Witness for C2: a failing storage (every query raises and is caught as a
miss) and an empty cache return the key for a supported, an absent and an
unsupported language argument. -/
theorem c2_witness :
    ((get_translation ⟨[⟨"greet", "zh", "NH", "ui"⟩], true⟩ [] "greet" (some "fr") none).value
        = "greet") ∧
    ((get_translation ⟨[⟨"greet", "zh", "NH", "ui"⟩], true⟩ [] "greet" none none).value
        = "greet") ∧
    ((get_translation ⟨[⟨"greet", "zh", "NH", "ui"⟩], true⟩ [] "greet" (some "xx") none).value
        = "greet") :=
  ⟨c2_missing_key_returns_key ⟨[⟨"greet", "zh", "NH", "ui"⟩], true⟩ [] "greet"
      (fun _ _ => rfl) (fun _ _ => rfl) (some "fr"),
   c2_missing_key_returns_key ⟨[⟨"greet", "zh", "NH", "ui"⟩], true⟩ [] "greet"
      (fun _ _ => rfl) (fun _ _ => rfl) none,
   c2_missing_key_returns_key ⟨[⟨"greet", "zh", "NH", "ui"⟩], true⟩ [] "greet"
      (fun _ _ => rfl) (fun _ _ => rfl) (some "xx")⟩

theorem resolve_core_idem (db : Storage) (c : Cache) (K L F : String) (hFL : F ≠ L) :
    (resolve_core db (resolve_core db c K L F).cache K L F).value =
      (resolve_core db c K L F).value ∧
    ((get_from_cache c K L ≠ none ∨ load_translation_from_db db K L ≠ none) →
      (resolve_core db (resolve_core db c K L F).cache K L F).dbQueries = 0) := by
  cases hc : get_from_cache c K L with
  | some t =>
    have h1 := @resolve_core_cache_hit db c K L t F hc
    rw [h1]
    constructor
    · show (resolve_core db c K L F).value = t
      rw [resolve_core_cache_hit F hc]
    · intro _
      show (resolve_core db c K L F).dbQueries = 0
      rw [resolve_core_cache_hit F hc]
  | none =>
    cases hl : load_translation_from_db db K L with
    | some t =>
      have h1 := resolve_core_db_hit F hc hl
      rw [h1]
      have hc2 := get_from_cache_cache_translation_self c K L t
      constructor
      · show (resolve_core db (cache_translation c K L t) K L F).value = t
        rw [resolve_core_cache_hit F hc2]
      · intro _
        show (resolve_core db (cache_translation c K L t) K L F).dbQueries = 0
        rw [resolve_core_cache_hit F hc2]
    | none =>
      cases hcF : get_from_cache c K F with
      | some ft =>
        have h1 := resolve_core_fb_cache_hit hc hl hFL hcF
        rw [h1]
        refine ⟨?_, fun h => by rcases h with h | h <;> exact absurd rfl h⟩
        show (resolve_core db c K L F).value = ft
        rw [resolve_core_fb_cache_hit hc hl hFL hcF]
      | none =>
        cases hlF : load_translation_from_db db K F with
        | some ft =>
          have h1 := resolve_core_fb_db_hit hc hl hFL hcF hlF
          rw [h1]
          refine ⟨?_, fun h => by rcases h with h | h <;> exact absurd rfl h⟩
          show (resolve_core db (cache_translation c K F ft) K L F).value = ft
          have hcL : get_from_cache (cache_translation c K F ft) K L = none := by
            rw [get_from_cache_cache_translation_other c ft (fun hp => hFL hp.1.symm)]
            exact hc
          have hcF2 := get_from_cache_cache_translation_self c K F ft
          rw [resolve_core_fb_cache_hit hcL hl hFL hcF2]
        | none =>
          have h1 := resolve_core_miss hc hl hFL hcF hlF
          rw [h1]
          refine ⟨?_, fun h => by rcases h with h | h <;> exact absurd rfl h⟩
          show (resolve_core db c K L F).value = K
          rw [resolve_core_miss hc hl hFL hcF hlF]

/-- Counterexample to C3 as stated: with the key stored only in the
fallback language English, the first `get_translation("greet", "zh")` caches
the value under `"en"` only, so the second identical call again misses the
cache for `("greet", "zh")` and issues one storage query (`dbQueries = 1`,
not `0`) — even though it returns the same value. -/
theorem c3_counterexample_fallback_requeries :
    ((get_translation ⟨[⟨"greet", "en", "Hello", "ui"⟩], false⟩
        (get_translation ⟨[⟨"greet", "en", "Hello", "ui"⟩], false⟩ []
          "greet" (some "zh") none).cache
        "greet" (some "zh") none).value =
      (get_translation ⟨[⟨"greet", "en", "Hello", "ui"⟩], false⟩ []
        "greet" (some "zh") none).value) ∧
    ((get_translation ⟨[⟨"greet", "en", "Hello", "ui"⟩], false⟩
        (get_translation ⟨[⟨"greet", "en", "Hello", "ui"⟩], false⟩ []
          "greet" (some "zh") none).cache
        "greet" (some "zh") none).dbQueries = 1) ∧
    ¬((get_translation ⟨[⟨"greet", "en", "Hello", "ui"⟩], false⟩
        (get_translation ⟨[⟨"greet", "en", "Hello", "ui"⟩], false⟩ []
          "greet" (some "zh") none).cache
        "greet" (some "zh") none).dbQueries = 0) := by
  decide

/-- C3 amended: two successive `get_translation(K, L)` calls (supported L)
return the same value; the second call is served from cache with no storage
query provided the first call found the translation for the requested
language L itself (in cache or storage) — when the value came from the
fallback language or nothing was found, the second call queries storage
again. -/
theorem c3_amended_second_call_stable (db : Storage) (c : Cache) (K L : String)
    (hL : L ∈ SUPPORTED_LANGUAGES) :
    ((get_translation db (get_translation db c K (some L) none).cache K (some L) none).value =
      (get_translation db c K (some L) none).value) ∧
    ((get_from_cache c K L ≠ none ∨ load_translation_from_db db K L ≠ none) →
      (get_translation db (get_translation db c K (some L) none).cache K
        (some L) none).dbQueries = 0) := by
  have hfst := effective_fst_of_supported L hL
  have hne := effective_snd_ne_fst (some L)
  rw [hfst] at hne
  simp only [get_translation_eq_resolve_core, hfst]
  exact resolve_core_idem db c K L _ hne

/-- Witness for the amended C3: the key is stored in the requested language,
so the second call returns the same value from cache with zero queries. -/
theorem c3_amended_witness :
    ((get_translation ⟨[⟨"greet", "zh", "NH", "ui"⟩], false⟩
        (get_translation ⟨[⟨"greet", "zh", "NH", "ui"⟩], false⟩ []
          "greet" (some "zh") none).cache
        "greet" (some "zh") none).value =
      (get_translation ⟨[⟨"greet", "zh", "NH", "ui"⟩], false⟩ []
        "greet" (some "zh") none).value) ∧
    ((get_translation ⟨[⟨"greet", "zh", "NH", "ui"⟩], false⟩
        (get_translation ⟨[⟨"greet", "zh", "NH", "ui"⟩], false⟩ []
          "greet" (some "zh") none).cache
        "greet" (some "zh") none).dbQueries = 0) :=
  ⟨(c3_amended_second_call_stable ⟨[⟨"greet", "zh", "NH", "ui"⟩], false⟩ [] "greet" "zh"
      (by decide)).1,
   (c3_amended_second_call_stable ⟨[⟨"greet", "zh", "NH", "ui"⟩], false⟩ [] "greet" "zh"
      (by decide)).2 (Or.inr (by decide))⟩

theorem resolve_core_miss_same {db : Storage} {c : Cache} {key L F : String}
    (hc : get_from_cache c key L = none)
    (hl : load_translation_from_db db key L = none)
    (hne : ¬ F ≠ L) :
    resolve_core db c key L F = ⟨key, c, 1⟩ := by
  unfold resolve_core
  rw [hc, hl, if_neg hne]

theorem find?_filter_of_imp {α : Type} (p q : α → Bool) :
    ∀ l : List α, (∀ e ∈ l, p e = true → q e = true) →
      (l.filter q).find? p = l.find? p := by
  intro l
  induction l with
  | nil => intro _; rfl
  | cons hd tl ih =>
    intro h
    have htl := ih (fun e he hpe => h e (List.mem_cons_of_mem _ he) hpe)
    by_cases hq : q hd = true
    · rw [List.filter_cons_of_pos hq, List.find?_cons, List.find?_cons]
      cases hp : p hd
      · exact htl
      · rfl
    · have hp : p hd = false := by
        cases hpc : p hd
        · rfl
        · exact absurd (h hd (List.mem_cons_self _ _) hpc) hq
      rw [List.filter_cons_of_neg hq, htl, List.find?_cons, hp]

theorem uncached_of_not_category_cached (c : Cache) (category lang : String)
    (hnc : is_category_cached c category lang = false) (k : String)
    (hpref : strStartsWith (category ++ ".") k = true) :
    get_from_cache c k lang = none := by
  unfold get_from_cache
  cases hf : c.find? (fun e => e.1 == lang && e.2.1 == k) with
  | none => rfl
  | some e =>
    exfalso
    have hpe := List.find?_some hf
    have hme := List.mem_of_find?_eq_some hf
    obtain ⟨he1, he2⟩ := Bool.and_eq_true_iff.mp hpe
    rw [beq_iff_eq] at he2
    have hcc : is_category_cached c category lang = true := by
      unfold is_category_cached
      rw [List.any_eq_true]
      refine ⟨e, hme, ?_⟩
      unfold category_pred
      rw [he1, he2, hpref]
      rfl
    rw [hcc] at hnc
    exact Bool.noConfusion hnc

theorem get_translations_by_category_fst (db : Storage) (c : Cache) (category : String)
    (language_code? : Option String) :
    (get_translations_by_category db c category language_code?).1 =
      ((if !(is_category_cached c category (effective_languages language_code? none).1) then
          load_category_from_db db c category (effective_languages language_code? none).1
        else c).filter
          (category_pred category (effective_languages language_code? none).1)).map
        (fun e => (e.2.1, e.2.2)) := rfl

theorem get_translations_by_category_snd (db : Storage) (c : Cache) (category : String)
    (language_code? : Option String) :
    (get_translations_by_category db c category language_code?).2 =
      if !(is_category_cached c category (effective_languages language_code? none).1) then
        load_category_from_db db c category (effective_languages language_code? none).1
      else c := rfl

/-- C8: clearing the cache for a supported language L removes exactly the
entries and the preload marker of L — every lookup under L afterwards
misses, every other language's entries and markers are untouched — and a
subsequent `get_translation` for any key previously cached under L goes back
to storage (at least one query). -/
theorem c8_clear_cache_frame (db : Storage) (c : Cache) (cache_loaded : List String) (L : String)
    (hL : L ∈ SUPPORTED_LANGUAGES) :
    (∀ k, get_from_cache (clear_cache c cache_loaded (some L)).1 k L = none) ∧
    (∀ l k, l ≠ L →
      get_from_cache (clear_cache c cache_loaded (some L)).1 k l = get_from_cache c k l) ∧
    (L ∉ (clear_cache c cache_loaded (some L)).2) ∧
    (∀ l, l ≠ L → (l ∈ (clear_cache c cache_loaded (some L)).2 ↔ l ∈ cache_loaded)) ∧
    (∀ k, get_from_cache c k L ≠ none →
      1 ≤ (get_translation db (clear_cache c cache_loaded (some L)).1 k (some L) none).dbQueries) := by
  have hne : L ≠ "" := by
    intro he
    subst he
    exact absurd hL (by decide)
  have hc1 : (clear_cache c cache_loaded (some L)).1 = c.filter (fun e => !(e.1 == L)) := by
    show (if L ≠ "" then
      (c.filter (fun e => !(e.1 == L)), cache_loaded.filter (fun l => !(l == L)))
      else ([], [])).1 = c.filter (fun e => !(e.1 == L))
    rw [if_pos hne]
  have hc2 : (clear_cache c cache_loaded (some L)).2 =
      cache_loaded.filter (fun l => !(l == L)) := by
    show (if L ≠ "" then
      (c.filter (fun e => !(e.1 == L)), cache_loaded.filter (fun l => !(l == L)))
      else ([], [])).2 = cache_loaded.filter (fun l => !(l == L))
    rw [if_pos hne]
  have hclr : ∀ k, get_from_cache (clear_cache c cache_loaded (some L)).1 k L = none := by
    intro k
    rw [hc1]
    unfold get_from_cache
    have hfind : (c.filter (fun e => !(e.1 == L))).find? (fun e => e.1 == L && e.2.1 == k)
        = none := by
      rw [List.find?_eq_none]
      intro e he
      have h2 := (List.mem_filter.mp he).2
      simp only [Bool.not_eq_true'] at h2
      simp [h2]
    rw [hfind]
    rfl
  refine ⟨hclr, ?_, ?_, ?_, ?_⟩
  · intro l k hl
    rw [hc1]
    unfold get_from_cache
    rw [find?_filter_of_imp _ _ c ?imp]
    case imp =>
      intro e _ hpe
      obtain ⟨h1, _⟩ := Bool.and_eq_true_iff.mp hpe
      rw [beq_iff_eq] at h1
      rw [h1]
      simp [beq_eq_false_iff_ne.mpr hl]
  · rw [hc2]
    intro hmem
    have h2 := (List.mem_filter.mp hmem).2
    simp at h2
  · intro l hl
    rw [hc2]
    simp [List.mem_filter, beq_iff_eq, hl]
  · intro k _
    rw [get_translation_eq_resolve_core, effective_fst_of_supported L hL]
    have hne2 := effective_snd_ne_fst (some L)
    rw [effective_fst_of_supported L hL] at hne2
    cases hl2 : load_translation_from_db db k L with
    | some t =>
      rw [resolve_core_db_hit _ (hclr k) hl2]
    | none =>
      cases hcF : get_from_cache (clear_cache c cache_loaded (some L)).1 k
          (effective_languages (some L) none).2 with
      | some ft =>
        rw [resolve_core_fb_cache_hit (hclr k) hl2 hne2 hcF]
      | none =>
        cases hlF : load_translation_from_db db k (effective_languages (some L) none).2 with
        | some ft =>
          rw [resolve_core_fb_db_hit (hclr k) hl2 hne2 hcF hlF]
          exact Nat.le_of_lt Nat.one_lt_two
        | none =>
          rw [resolve_core_miss (hclr k) hl2 hne2 hcF hlF]
          exact Nat.le_of_lt Nat.one_lt_two

/-- Witness for C8: clearing `"zh"` from a two-language cache empties the
zh partition, keeps the en partition and the en preload marker, and a
follow-up resolution of the previously cached key hits storage once. -/
theorem c8_witness :
    (get_from_cache (clear_cache [("zh", "greet", "NH"), ("en", "greet", "Hello")] ["zh", "en"]
      (some "zh")).1 "greet" "zh" = none) ∧
    (get_from_cache (clear_cache [("zh", "greet", "NH"), ("en", "greet", "Hello")] ["zh", "en"]
      (some "zh")).1 "greet" "en" = get_from_cache [("zh", "greet", "NH"), ("en", "greet", "Hello")]
      "greet" "en") ∧
    ("zh" ∉ (clear_cache [("zh", "greet", "NH"), ("en", "greet", "Hello")] ["zh", "en"]
      (some "zh")).2) ∧
    ("en" ∈ (clear_cache [("zh", "greet", "NH"), ("en", "greet", "Hello")] ["zh", "en"]
      (some "zh")).2 ↔ "en" ∈ ["zh", "en"]) ∧
    (1 ≤ (get_translation ⟨[⟨"greet", "zh", "NH", "ui"⟩], false⟩
      (clear_cache [("zh", "greet", "NH"), ("en", "greet", "Hello")] ["zh", "en"] (some "zh")).1
      "greet" (some "zh") none).dbQueries) :=
  ⟨(c8_clear_cache_frame ⟨[⟨"greet", "zh", "NH", "ui"⟩], false⟩
      [("zh", "greet", "NH"), ("en", "greet", "Hello")] ["zh", "en"] "zh" (by decide)).1 "greet",
   (c8_clear_cache_frame ⟨[⟨"greet", "zh", "NH", "ui"⟩], false⟩
      [("zh", "greet", "NH"), ("en", "greet", "Hello")] ["zh", "en"] "zh" (by decide)).2.1 "en"
      "greet" (by decide),
   (c8_clear_cache_frame ⟨[⟨"greet", "zh", "NH", "ui"⟩], false⟩
      [("zh", "greet", "NH"), ("en", "greet", "Hello")] ["zh", "en"] "zh" (by decide)).2.2.1,
   (c8_clear_cache_frame ⟨[⟨"greet", "zh", "NH", "ui"⟩], false⟩
      [("zh", "greet", "NH"), ("en", "greet", "Hello")] ["zh", "en"] "zh" (by decide)).2.2.2.1 "en"
      (by decide),
   (c8_clear_cache_frame ⟨[⟨"greet", "zh", "NH", "ui"⟩], false⟩
      [("zh", "greet", "NH"), ("en", "greet", "Hello")] ["zh", "en"] "zh" (by decide)).2.2.2.2
      "greet" (by decide)⟩

theorem resolve_core_cache_preserve (db : Storage) (c : Cache) (key L F : String)
    (l k w : String) (hw : get_from_cache c k l = some w) :
    get_from_cache (resolve_core db c key L F).cache k l = some w := by
  cases hc : get_from_cache c key L with
  | some t =>
    rw [resolve_core_cache_hit F hc]
    exact hw
  | none =>
    cases hl : load_translation_from_db db key L with
    | some t =>
      rw [resolve_core_db_hit F hc hl]
      show get_from_cache (cache_translation c key L t) k l = some w
      have hne : ¬(l = L ∧ k = key) := by
        rintro ⟨h1, h2⟩
        subst h1
        subst h2
        rw [hw] at hc
        exact Option.noConfusion hc
      rw [get_from_cache_cache_translation_other c t hne]
      exact hw
    | none =>
      by_cases hFL : F ≠ L
      · cases hcF : get_from_cache c key F with
        | some ft =>
          rw [resolve_core_fb_cache_hit hc hl hFL hcF]
          exact hw
        | none =>
          cases hlF : load_translation_from_db db key F with
          | some ft =>
            rw [resolve_core_fb_db_hit hc hl hFL hcF hlF]
            show get_from_cache (cache_translation c key F ft) k l = some w
            have hne : ¬(l = F ∧ k = key) := by
              rintro ⟨h1, h2⟩
              subst h1
              subst h2
              rw [hw] at hcF
              exact Option.noConfusion hcF
            rw [get_from_cache_cache_translation_other c ft hne]
            exact hw
          | none =>
            rw [resolve_core_miss hc hl hFL hcF hlF]
            exact hw
      · rw [resolve_core_miss_same hc hl hFL]
        exact hw

theorem resolve_core_unchanged_of_miss (db : Storage) (c : Cache) (key L F : String)
    (hl : load_translation_from_db db key L = none)
    (hlF : load_translation_from_db db key F = none) :
    (resolve_core db c key L F).cache = c := by
  cases hc : get_from_cache c key L with
  | some t => rw [resolve_core_cache_hit F hc]
  | none =>
    by_cases hFL : F ≠ L
    · cases hcF : get_from_cache c key F with
      | some ft => rw [resolve_core_fb_cache_hit hc hl hFL hcF]
      | none => rw [resolve_core_miss hc hl hFL hcF hlF]
    · rw [resolve_core_miss_same hc hl hFL]

theorem load_category_preserve (db : Storage) (c : Cache) (category lang : String)
    (hnc : is_category_cached c category lang = false)
    (hcat : ∀ r ∈ db.rows, r.category = category →
      strStartsWith (category ++ ".") r.key = true)
    (l k w : String) (hw : get_from_cache c k l = some w) :
    get_from_cache (load_category_from_db db c category lang) k l = some w := by
  unfold load_category_from_db
  by_cases hfail : db.failing = true
  · rw [if_pos hfail]
    exact hw
  · rw [if_neg hfail]
    rw [fold_cache_preserve lang _ c l k ?cond]
    · exact hw
    case cond =>
      intro r hr
      rintro ⟨h1, h2⟩
      subst h1
      subst h2
      have hfr := List.mem_filter.mp hr
      obtain ⟨hrc, _⟩ := Bool.and_eq_true_iff.mp hfr.2
      rw [beq_iff_eq] at hrc
      have hpref := hcat r hfr.1 hrc
      rw [uncached_of_not_category_cached c category l hnc r.key hpref] at hw
      exact Option.noConfusion hw

/-- C9 (implicit): neither `get_translation` nor
`get_translations_by_category` removes or overwrites an existing cache
entry — every `(language, key)` pair cached before a call is still cached
with the same value afterwards (for the category fetch this relies on the
data-model invariant that rows of a category carry the category's key
prefix) — and a key that storage misses in both consulted languages (the
normalized requested language and its fallback) leaves the cache completely
unchanged, even if the key is stored under some unconsulted language:
misses are never cached. -/
theorem c9_cache_only_grows :
    (∀ (db : Storage) (c : Cache) (key : String) (language_code? : Option String)
      (l k w : String), get_from_cache c k l = some w →
      get_from_cache (get_translation db c key language_code? none).cache k l = some w) ∧
    (∀ (db : Storage) (c : Cache) (category : String) (language_code? : Option String),
      (∀ r ∈ db.rows, r.category = category →
        strStartsWith (category ++ ".") r.key = true) →
      ∀ l k w, get_from_cache c k l = some w →
        get_from_cache (get_translations_by_category db c category language_code?).2 k l
          = some w) ∧
    (∀ (db : Storage) (c : Cache) (key : String) (language_code? : Option String),
      load_translation_from_db db key (effective_languages language_code? none).1 = none →
      load_translation_from_db db key (effective_languages language_code? none).2 = none →
      (get_translation db c key language_code? none).cache = c) := by
  refine ⟨?_, ?_, ?_⟩
  · intro db c key language_code? l k w hw
    rw [get_translation_eq_resolve_core]
    exact resolve_core_cache_preserve db c key _ _ l k w hw
  · intro db c category language_code? hcat l k w hw
    rw [get_translations_by_category_snd]
    by_cases hcc : is_category_cached c category (effective_languages language_code? none).1
        = true
    · rw [hcc]
      exact hw
    · have hcc! : is_category_cached c category (effective_languages language_code? none).1
          = false := by
        cases h : is_category_cached c category (effective_languages language_code? none).1
        · rfl
        · exact absurd h hcc
      rw [hcc!]
      show get_from_cache (load_category_from_db db c category
        (effective_languages language_code? none).1) k l = some w
      exact load_category_preserve db c category _ hcc! hcat l k w hw
  · intro db c key language_code? hmiss1 hmiss2
    rw [get_translation_eq_resolve_core]
    exact resolve_core_unchanged_of_miss db c key _ _ hmiss1 hmiss2

/-- Witness for C9: a pre-existing entry survives a resolving call and a
category fetch, and a call whose key is stored only under the unconsulted
language `"es"` (the request for `"zh"` consults `"zh"` and `"en"` only)
leaves the cache exactly as it was. -/
theorem c9_witness :
    (get_from_cache (get_translation ⟨[⟨"greet", "zh", "NH", "ui"⟩], false⟩ [("en", "x", "X")]
      "greet" (some "zh") none).cache "x" "en" = some "X") ∧
    (get_from_cache (get_translations_by_category ⟨[⟨"ui.a", "en", "A", "ui"⟩], false⟩
      [("en", "x", "X")] "ui" (some "en")).2 "x" "en" = some "X") ∧
    ((get_translation ⟨[⟨"greet", "es", "Hola", "ui"⟩], false⟩ [("en", "x", "X")]
      "greet" (some "zh") none).cache = [("en", "x", "X")]) :=
  ⟨c9_cache_only_grows.1 ⟨[⟨"greet", "zh", "NH", "ui"⟩], false⟩ [("en", "x", "X")] "greet"
      (some "zh") "en" "x" "X" (by decide),
   c9_cache_only_grows.2.1 ⟨[⟨"ui.a", "en", "A", "ui"⟩], false⟩ [("en", "x", "X")] "ui"
      (some "en") (by decide) "en" "x" "X" (by decide),
   c9_cache_only_grows.2.2 ⟨[⟨"greet", "es", "Hola", "ui"⟩], false⟩ [("en", "x", "X")] "greet"
      (some "zh") (by decide) (by decide)⟩

/-- Counterexample to C4 as stated: with `("ui.a", "en")` already cached,
the category-cached heuristic of `_is_category_cached` reports the whole
`"ui"` category as cached, so the bulk load is skipped and the stored key
`"ui.b"` (which begins with `"ui."` and has stored value `"B"`) is missing
from the returned mapping. -/
theorem c4_counterexample_partial_cache :
    (∃ r ∈ (⟨[⟨"ui.a", "en", "A", "ui"⟩, ⟨"ui.b", "en", "B", "ui"⟩], false⟩ : Storage).rows,
        r.key = "ui.b" ∧ r.language_code = "en" ∧ r.value = "B" ∧
        strStartsWith "ui." r.key = true) ∧
    (("ui.b", "B") ∉ (get_translations_by_category
        ⟨[⟨"ui.a", "en", "A", "ui"⟩, ⟨"ui.b", "en", "B", "ui"⟩], false⟩
        [("en", "ui.a", "A")] "ui" (some "en")).1) := by decide

/-- C4 amended: when no key of the category is cached yet for the supported
language L (so the heuristic lets the bulk load run), with working storage,
unique `(key, language)` rows and category columns consistent with the key
prefix, the category fetch returns exactly the stored keys of the category
for L with their stored values; moreover — for every cache and storage
state, with no hypotheses — every returned pair carries the category prefix
and comes from L's partition of the resulting cache, so there is no
cross-language leakage.  (When the category is already partially cached the
fetch returns only the cached prefix entries and may omit stored keys, as
the counterexample shows.) -/
theorem c4_amended_category_fetch :
    (∀ (db : Storage) (c : Cache) (category L : String),
      L ∈ SUPPORTED_LANGUAGES →
      db.failing = false →
      is_category_cached c category L = false →
      (∀ r ∈ db.rows, r.language_code = L →
        (r.category = category ↔ strStartsWith (category ++ ".") r.key = true)) →
      db.rows.Pairwise (fun a b => a.key ≠ b.key ∨ a.language_code ≠ b.language_code) →
      ∀ k v, (k, v) ∈ (get_translations_by_category db c category (some L)).1 ↔
        (strStartsWith (category ++ ".") k = true ∧
          ∃ r ∈ db.rows, r.key = k ∧ r.language_code = L ∧ r.value = v)) ∧
    (∀ (db : Storage) (c : Cache) (category L : String), L ∈ SUPPORTED_LANGUAGES →
      ∀ k v, (k, v) ∈ (get_translations_by_category db c category (some L)).1 →
        strStartsWith (category ++ ".") k = true ∧
        (L, k, v) ∈ (get_translations_by_category db c category (some L)).2) := by
  constructor
  · intro db c category L hL hfail hnc hcat hnodup
    have hLn : (effective_languages (some L) none).1 = L := effective_fst_of_supported L hL
    have hload : load_category_from_db db c category L =
        c ++ (db.rows.filter (fun r => r.category == category && r.language_code == L)).map
          (fun r => (L, r.key, r.value)) := by
      unfold load_category_from_db
      rw [if_neg (by rw [hfail]; exact Bool.false_ne_true)]
      apply fold_cache_append
      · intro r hr
        have hfr := List.mem_filter.mp hr
        obtain ⟨hrc, hrl⟩ := Bool.and_eq_true_iff.mp hfr.2
        rw [beq_iff_eq] at hrc hrl
        exact uncached_of_not_category_cached c category L hnc r.key ((hcat r hfr.1 hrl).mp hrc)
      · intro r hr
        have hfr := List.mem_filter.mp hr
        obtain ⟨_, hrl⟩ := Bool.and_eq_true_iff.mp hfr.2
        rw [beq_iff_eq] at hrl
        exact hrl
      · exact hnodup.filter _
    have hif : (if !(is_category_cached c category L) then load_category_from_db db c category L
        else c) = load_category_from_db db c category L := by
      rw [hnc]
      rfl
    have hfc : c.filter (category_pred category L) = [] := by
      rw [List.filter_eq_nil_iff]
      unfold is_category_cached at hnc
      rw [List.any_eq_false] at hnc
      exact hnc
    have hfn : ((db.rows.filter (fun r => r.category == category && r.language_code == L)).map
        (fun r => (L, r.key, r.value))).filter (category_pred category L) =
        (db.rows.filter (fun r => r.category == category && r.language_code == L)).map
          (fun r => (L, r.key, r.value)) := by
      rw [List.filter_eq_self]
      intro e he
      obtain ⟨r, hr, hre⟩ := List.mem_map.mp he
      have hfr := List.mem_filter.mp hr
      obtain ⟨hrc, hrl⟩ := Bool.and_eq_true_iff.mp hfr.2
      rw [beq_iff_eq] at hrc hrl
      have hpref := (hcat r hfr.1 hrl).mp hrc
      rw [← hre]
      unfold category_pred
      simp [hpref]
    intro k v
    constructor
    · intro hin
      rw [get_translations_by_category_fst, hLn, hif, hload, List.filter_append, hfc, hfn,
        List.nil_append, List.map_map] at hin
      obtain ⟨r, hr, hre⟩ := List.mem_map.mp hin
      have hk : r.key = k := congrArg Prod.fst hre
      have hv : r.value = v := congrArg Prod.snd hre
      have hfr := List.mem_filter.mp hr
      obtain ⟨hrc, hrl⟩ := Bool.and_eq_true_iff.mp hfr.2
      rw [beq_iff_eq] at hrc hrl
      exact ⟨hk ▸ (hcat r hfr.1 hrl).mp hrc, r, hfr.1, hk, hrl, hv⟩
    · rintro ⟨hpref, r, hrm, hk, hrl, hv⟩
      rw [get_translations_by_category_fst, hLn, hif, hload, List.filter_append, hfc, hfn,
        List.nil_append, List.map_map]
      refine List.mem_map.mpr ⟨r, ?_, ?_⟩
      · refine List.mem_filter.mpr ⟨hrm, ?_⟩
        have hrc := (hcat r hrm hrl).mpr (by rw [hk]; exact hpref)
        simp [hrc, hrl]
      · show (r.key, r.value) = (k, v)
        rw [hk, hv]
  · intro db c category L hL k v hin
    rw [get_translations_by_category_fst, effective_fst_of_supported L hL] at hin
    rw [get_translations_by_category_snd, effective_fst_of_supported L hL]
    obtain ⟨e, he, hev⟩ := List.mem_map.mp hin
    have hef := List.mem_filter.mp he
    obtain ⟨he1, he2⟩ := Bool.and_eq_true_iff.mp hef.2
    rw [beq_iff_eq] at he1
    have hk : e.2.1 = k := congrArg Prod.fst hev
    have hv : e.2.2 = v := congrArg Prod.snd hev
    refine ⟨hk ▸ he2, ?_⟩
    have he' : e = (L, k, v) := by
      rcases e with ⟨e1, e2, e3⟩
      show (e1, e2, e3) = (L, k, v)
      rw [show e1 = L from he1, show e2 = k from hk, show e3 = v from hv]
    rw [← he']
    exact hef.1

/-- Witness for the amended C4: from a clean cache, the stored `"ui"` row is
returned exactly; and with a cache already holding a French entry the
returned pair still carries the prefix and lies in the en partition of the
resulting cache. -/
theorem c4_amended_witness :
    (("ui.a", "A") ∈ (get_translations_by_category
        ⟨[⟨"ui.a", "en", "A", "ui"⟩, ⟨"ui.b", "en", "B", "ui"⟩], false⟩ [] "ui" (some "en")).1) ∧
    (("en", "ui.a", "A") ∈ (get_translations_by_category
        ⟨[⟨"ui.a", "en", "A", "ui"⟩, ⟨"ui.b", "en", "B", "ui"⟩], false⟩ [] "ui" (some "en")).2) ∧
    (strStartsWith "ui." "ui.a" = true ∧
      ("en", "ui.a", "A") ∈ (get_translations_by_category
        ⟨[⟨"ui.a", "en", "A", "ui"⟩, ⟨"ui.b", "en", "B", "ui"⟩], false⟩
        [("fr", "ui.x", "F")] "ui" (some "en")).2) := by
  have hmem := (c4_amended_category_fetch.1
    ⟨[⟨"ui.a", "en", "A", "ui"⟩, ⟨"ui.b", "en", "B", "ui"⟩], false⟩ [] "ui" "en"
    (by decide) rfl (by decide) (by decide) (by decide) "ui.a" "A").mpr (by decide)
  refine ⟨hmem, ?_, ?_⟩
  · exact (c4_amended_category_fetch.2
      ⟨[⟨"ui.a", "en", "A", "ui"⟩, ⟨"ui.b", "en", "B", "ui"⟩], false⟩ [] "ui" "en"
      (by decide) "ui.a" "A" hmem).2
  · exact c4_amended_category_fetch.2
      ⟨[⟨"ui.a", "en", "A", "ui"⟩, ⟨"ui.b", "en", "B", "ui"⟩], false⟩
      [("fr", "ui.x", "F")] "ui" "en" (by decide) "ui.a" "A" (by decide)

theorem detect_eq_firstMax (a : String) (hne : parse_accept_language a ≠ [])
    (m : String × Rat) (hm : firstMax (parse_accept_language a) = some m) :
    detect_language_from_header a = m.1 := by
  have ha : a ≠ "" := by
    intro he
    rw [he] at hne
    exact hne (by decide)
  unfold detect_language_from_header
  rw [if_neg ha]
  show (if (parse_accept_language a).isEmpty then DEFAULT_LANGUAGE
    else ((sortDesc (parse_accept_language a)).headD ("", 0)).1) = m.1
  have hne' : (parse_accept_language a).isEmpty = false := by
    cases hl : parse_accept_language a with
    | nil => exact absurd hl hne
    | cons b t => rfl
  rw [hne', if_neg Bool.false_ne_true]
  have hhead : (sortDesc (parse_accept_language a)).head? = some m := by
    rw [head?_sortDesc]
    exact hm
  cases hsd : sortDesc (parse_accept_language a) with
  | nil =>
    rw [hsd] at hhead
    exact Option.noConfusion hhead
  | cons b t =>
    rw [hsd] at hhead
    have hb : b = m := Option.some_inj.mp (by simpa using hhead)
    rw [List.headD_cons, hb]

/-- C5: the negotiation algorithm of `detect_language_from_header` — comma
split, optional quality weight defaulting to 1.0 with malformed weights
treated as 1.0, lower-cased base subtag, supported-only filter, highest
weight wins, default on empty or unmatched headers — verified on the three
specified headers and in general: an empty filtered list yields the default,
and otherwise the result is the code of a parsed supported entry of maximal
weight. -/
theorem c5_negotiation :
    detect_language_from_header "fr;q=0.8,en;q=0.9,zh;q=1.0" = "zh" ∧
    detect_language_from_header "de,it" = DEFAULT_LANGUAGE ∧
    detect_language_from_header "" = DEFAULT_LANGUAGE ∧
    (∀ accept_language, parse_accept_language accept_language = [] →
      detect_language_from_header accept_language = DEFAULT_LANGUAGE) ∧
    (∀ accept_language, parse_accept_language accept_language ≠ [] →
      ∃ e ∈ parse_accept_language accept_language,
        detect_language_from_header accept_language = e.1 ∧
        ∀ e' ∈ parse_accept_language accept_language, e'.2 ≤ e.2) := by
  refine ⟨by decide, by decide, by decide, ?_, ?_⟩
  · intro a hpe
    by_cases ha : a = ""
    · rw [ha]
      decide
    · unfold detect_language_from_header
      rw [if_neg ha]
      show (if (parse_accept_language a).isEmpty then DEFAULT_LANGUAGE
        else ((sortDesc (parse_accept_language a)).headD ("", 0)).1) = DEFAULT_LANGUAGE
      rw [hpe]
      rfl
  · intro a hne
    obtain ⟨m, hm⟩ := firstMax_of_ne_nil (parse_accept_language a) hne
    have hmem : m ∈ parse_accept_language a := by
      rcases firstMax_mem (parse_accept_language a) none m hm with h | h
      · exact Option.noConfusion h
      · exact h
    exact ⟨m, hmem, detect_eq_firstMax a hne m hm, fun e' he' =>
      (firstMax_max (parse_accept_language a) none m hm).1 e' he'⟩

/-- Witness for C5 on headers not fixed by the claim: an unsupported-only
header falls to the default, and a parsed header yields a maximal supported
entry. -/
theorem c5_witness :
    (detect_language_from_header "xx-yy" = DEFAULT_LANGUAGE) ∧
    (∃ e ∈ parse_accept_language "es;q=0.7,fr",
      detect_language_from_header "es;q=0.7,fr" = e.1 ∧
      ∀ e' ∈ parse_accept_language "es;q=0.7,fr", e'.2 ≤ e.2) :=
  ⟨c5_negotiation.2.2.2.1 "xx-yy" (by decide),
   c5_negotiation.2.2.2.2 "es;q=0.7,fr" (by decide)⟩

theorem earliest_max_eq_firstMax (l : List (String × Rat)) :
    earliest_max l = firstMax l := by
  unfold earliest_max firstMax
  have hstep : (fun (best : Option (String × Rat)) (x : String × Rat) =>
      match best with
      | none => some x
      | some y => if x.2 > y.2 then some x else some y) = stepMax := by
    funext o x
    cases o with
    | none => rfl
    | some y =>
      show (if x.2 > y.2 then some x else some y) = stepMax (some y) x
      rcases le_or_lt x.2 y.2 with h | h
      · rw [if_neg (not_lt.mpr h)]
        show some y = (if y.2 ≥ x.2 then some y else some x)
        rw [if_pos h]
      · rw [if_pos h]
        show some x = (if y.2 ≥ x.2 then some y else some x)
        rw [if_neg (not_le.mpr h)]
  rw [hstep]

theorem earliest_max_keep (l : List (String × Rat)) :
    ∀ y : String × Rat, (∀ z ∈ l, z.2 ≤ y.2) →
      l.foldl stepMax (some y) = some y := by
  induction l with
  | nil => intro y _; rfl
  | cons z zs ih =>
    intro y h
    rw [List.foldl_cons]
    have hf : stepMax (some y) z = some y := by
      show (if y.2 ≥ z.2 then some y else some z) = some y
      exact if_pos (h z (List.mem_cons_self _ _))
    rw [hf]
    exact ih y (fun w hw => h w (List.mem_cons_of_mem _ hw))

/-- C10 (implicit): the descending sort by weight is stable, so when several
supported entries share the maximal quality weight the negotiator returns
the one appearing earliest in the header: the result equals `earliest_max`,
the left fold that replaces its best entry only on a strictly greater
weight, and `earliest_max` indeed keeps the first element when no later
weight exceeds it. -/
theorem c10_stable_tie_break :
    (∀ accept_language, parse_accept_language accept_language ≠ [] →
      some (detect_language_from_header accept_language) =
        (earliest_max (parse_accept_language accept_language)).map (fun e => e.1)) ∧
    (∀ (x : String × Rat) (l : List (String × Rat)), (∀ z ∈ l, z.2 ≤ x.2) →
      earliest_max (x :: l) = some x) := by
  constructor
  · intro a hne
    obtain ⟨m, hm⟩ := firstMax_of_ne_nil (parse_accept_language a) hne
    rw [detect_eq_firstMax a hne m hm, earliest_max_eq_firstMax, hm]
    rfl
  · intro x l h
    rw [earliest_max_eq_firstMax]
    show (x :: l).foldl stepMax none = some x
    rw [List.foldl_cons]
    show l.foldl stepMax (some x) = some x
    exact earliest_max_keep l x h

/-- Witness for C10: a three-way header with a tie at weight 0.9 and the
tie-keeping behavior of `earliest_max` at weight 1. -/
theorem c10_witness :
    (some (detect_language_from_header "en;q=0.9,fr;q=0.9,es;q=0.5") =
      (earliest_max (parse_accept_language "en;q=0.9,fr;q=0.9,es;q=0.5")).map (fun e => e.1)) ∧
    (earliest_max [("en", 1), ("fr", 1)] = some ("en", 1)) :=
  ⟨c10_stable_tie_break.1 "en;q=0.9,fr;q=0.9,es;q=0.5" (by decide),
   c10_stable_tie_break.2 ("en", 1) [("fr", 1)] (by decide)⟩

theorem supported_ne_empty {s : String} (h : is_language_supported s = true) : s ≠ "" := by
  intro he
  rw [he] at h
  exact absurd h (by decide)

theorem skip_cond (o : Option String)
    (h : ∀ s, o = some s → is_language_supported s = false) :
    (truthyStr o && is_language_supported (o.getD "")) = false := by
  cases o with
  | none => rfl
  | some s =>
    show (truthyStr (some s) && is_language_supported s) = false
    rw [h s rfl]
    exact Bool.and_false _

/-- C6: the middleware's effective request language follows the strict
priority: a present and supported `lang` query parameter wins; else a
present and supported `X-Language` header; else, when an `Accept-Language`
header is present (and non-empty, per Python truthiness), the negotiated
result — the source's "only use if actually detected" comparison with the
default never changes the outcome; else the middleware default. -/
theorem c6_request_language_priority (d : String) (req : RequestData) :
    (∀ p, req.lang_param = some p → is_language_supported p = true →
      detect_request_language d req = p) ∧
    ((∀ p, req.lang_param = some p → is_language_supported p = false) →
      ∀ x, req.x_language = some x → is_language_supported x = true →
        detect_request_language d req = x) ∧
    ((∀ p, req.lang_param = some p → is_language_supported p = false) →
      (∀ x, req.x_language = some x → is_language_supported x = false) →
      ∀ a, req.accept_language = some a → a ≠ "" →
        detect_request_language d req = detect_language_from_header a) ∧
    ((∀ p, req.lang_param = some p → is_language_supported p = false) →
      (∀ x, req.x_language = some x → is_language_supported x = false) →
      (req.accept_language = none ∨ req.accept_language = some "") →
      detect_request_language d req = d) := by
  refine ⟨?_, ?_, ?_, ?_⟩
  · intro p hp hps
    unfold detect_request_language
    rw [hp]
    have ht : (truthyStr (some p) && is_language_supported ((some p).getD "")) = true := by
      show (!(p == "") && is_language_supported p) = true
      rw [beq_eq_false_iff_ne.mpr (supported_ne_empty hps), hps]
      rfl
    rw [if_pos ht]
    rfl
  · intro hp x hx hxs
    have hnp : ¬ (truthyStr req.lang_param &&
        is_language_supported (req.lang_param.getD "")) = true := by
      rw [skip_cond req.lang_param hp]
      exact Bool.false_ne_true
    unfold detect_request_language
    rw [if_neg hnp, hx]
    have ht : (truthyStr (some x) && is_language_supported ((some x).getD "")) = true := by
      show (!(x == "") && is_language_supported x) = true
      rw [beq_eq_false_iff_ne.mpr (supported_ne_empty hxs), hxs]
      rfl
    rw [if_pos ht]
    rfl
  · intro hp hx a ha hane
    have hnp : ¬ (truthyStr req.lang_param &&
        is_language_supported (req.lang_param.getD "")) = true := by
      rw [skip_cond req.lang_param hp]
      exact Bool.false_ne_true
    have hnx : ¬ (truthyStr req.x_language &&
        is_language_supported (req.x_language.getD "")) = true := by
      rw [skip_cond req.x_language hx]
      exact Bool.false_ne_true
    unfold detect_request_language
    rw [if_neg hnp, if_neg hnx, ha]
    have hta : truthyStr (some a) = true := by
      show (!(a == "")) = true
      rw [beq_eq_false_iff_ne.mpr hane]
      rfl
    rw [if_pos hta]
    show (if detect_language_from_header a ≠ d then detect_language_from_header a else d)
      = detect_language_from_header a
    by_cases hdd : detect_language_from_header a ≠ d
    · rw [if_pos hdd]
    · rw [if_neg hdd]
      exact (not_not.mp hdd).symm
  · intro hp hx hacc
    have hnp : ¬ (truthyStr req.lang_param &&
        is_language_supported (req.lang_param.getD "")) = true := by
      rw [skip_cond req.lang_param hp]
      exact Bool.false_ne_true
    have hnx : ¬ (truthyStr req.x_language &&
        is_language_supported (req.x_language.getD "")) = true := by
      rw [skip_cond req.x_language hx]
      exact Bool.false_ne_true
    unfold detect_request_language
    rw [if_neg hnp, if_neg hnx]
    rcases hacc with h | h
    · rw [h]
      rfl
    · rw [h]
      rfl

/-- Witness for C6: the four priority levels at concrete requests, with a
non-default middleware default language to make the priorities observable. -/
theorem c6_witness :
    (detect_request_language "en" ⟨some "fr", none, none⟩ = "fr") ∧
    (detect_request_language "en" ⟨some "de", some "zh", none⟩ = "zh") ∧
    (detect_request_language "en" ⟨none, none, some "de,it"⟩ =
      detect_language_from_header "de,it") ∧
    (detect_request_language "en" ⟨none, some "xx", none⟩ = "en") :=
  ⟨(c6_request_language_priority "en" ⟨some "fr", none, none⟩).1 "fr" rfl (by decide),
   (c6_request_language_priority "en" ⟨some "de", some "zh", none⟩).2.1
      (fun p hp => by injection hp with h; rw [← h]; decide) "zh" rfl (by decide),
   (c6_request_language_priority "en" ⟨none, none, some "de,it"⟩).2.2.1
      (fun p hp => Option.noConfusion hp) (fun x hx => Option.noConfusion hx)
      "de,it" rfl (by decide),
   (c6_request_language_priority "en" ⟨none, some "xx", none⟩).2.2.2
      (fun p hp => Option.noConfusion hp) (fun x hx => by injection hx with h; rw [← h]; decide)
      (Or.inl rfl)⟩

end I18n
